import Mathlib

/-!
Verification development for the portfolio-visualizer backend core
(`backend/app/services/analysis_service.py` and
`backend/app/services/price_service.py`).

Numbers held in pandas cells are modelled as `PV := Option ℚ`: `some q` is a
finite float value (idealized as a rational), `none` is a missing value / NaN
(`pd.notna` returns false).  The replay code never divides by zero (every
division is guarded by a strict positivity test on the denominator) and never
overflows, so no infinities arise in the replay; the separate `PF` type used
for the performance-metric model does carry infinities.  Dates are modelled as
`Nat` keys ordered like calendar dates (e.g. `20241108` for 2024-11-08): the
source only ever compares and sorts dates.
-/

/-- A pandas numeric cell: `some q` is a finite value, `none` is NaN/missing. -/
abbrev PV := Option ℚ

/-- Addition with NaN propagation (Python float `+` on possibly-NaN values). -/
def pAdd : PV → PV → PV
  | some a, some b => some (a + b)
  | _, _ => none

/-- Subtraction with NaN propagation. -/
def pSub : PV → PV → PV
  | some a, some b => some (a - b)
  | _, _ => none

/-- Multiplication with NaN propagation. -/
def pMul : PV → PV → PV
  | some a, some b => some (a * b)
  | _, _ => none

/-- Division with NaN propagation.  Every division performed by the replay is
guarded by a strict positivity check on the denominator, so the zero-denominator
branch is never reached by the embedded code. -/
def pDiv : PV → PV → PV
  | some a, some b => if b = 0 then none else some (a / b)
  | _, _ => none

/-- Negation with NaN propagation. -/
def pNeg : PV → PV
  | some a => some (-a)
  | none => none

/-- Absolute value with NaN propagation (Python `abs`). -/
def pAbs : PV → PV
  | some a => some |a|
  | none => none

/-- Model of `pd.notna`. -/
def pNotna : PV → Bool
  | some _ => true
  | none => false

/-- Python comparison `x != 0` on a possibly-NaN float: NaN compares unequal. -/
def pNeZero : PV → Bool
  | some a => decide (a ≠ 0)
  | none => true

/-- Python comparison `x > 0` on a possibly-NaN float: NaN compares false. -/
def pGtZero : PV → Bool
  | some a => decide (0 < a)
  | none => false

/-- The reserved cash sentinel symbol. -/
def CASH : String := "CASH EQUIVALENTS"

/-- The reserved fixed-income sentinel symbol. -/
def FIXED_INCOME : String := "FIXED INCOME"

/-- A normalized transaction row, as consumed by `FinanceCalculator`.
`transaction_type` is stored already lowercased (the source lowercases it with
`.lower()` before every comparison). -/
structure Txn where
  date : Nat
  stock : String
  transaction_type : String
  units : PV
  price : PV
  fee : PV
  security_type : String
  amount : PV
deriving DecidableEq

/-- One entry of the holdings dictionary built by `calculate_stock_holdings`.
`market_value` and `weight` are filled in by `_calculate_portfolio_values`
(the Python dict acquires those keys late; here they carry `some 0` until
assigned). -/
structure Holding where
  units : PV
  security_type : String
  cost_basis : PV
  last_price : PV
  market_value : PV
  weight : PV
  last_update : Nat
deriving DecidableEq

/-- The holdings dictionary: an insertion-ordered association list with
pairwise-distinct keys, mirroring the Python `dict`. -/
abbrev Holdings := List (String × Holding)

/-- Dictionary lookup (first binding wins; bindings are unique by
construction). -/
def lookupH (hs : Holdings) (s : String) : Option Holding :=
  match hs with
  | [] => none
  | kv :: rest => if kv.1 = s then some kv.2 else lookupH rest s

/-- In-place value update at a key, mirroring mutation of `holdings[symbol]`.
Absent keys are left untouched (the source only mutates keys it has
initialized). -/
def updateH (hs : Holdings) (s : String) (f : Holding → Holding) : Holdings :=
  hs.map (fun kv => if kv.1 = s then (kv.1, f kv.2) else kv)

/-- The fresh holding created when a symbol is first seen
(`analysis_service.py` lines 156-163). -/
def initHolding (row : Txn) : Holding :=
  { units := some 0
    security_type := row.security_type
    cost_basis := some 0
    last_price := some 0
    market_value := some 0
    weight := some 0
    last_update := row.date }

/-- Initialize the holding for a row's symbol if it is not the cash sentinel
and not yet present (`if symbol not in holdings and symbol != 'CASH
EQUIVALENTS'`). -/
def ensureSymbol (hs : Holdings) (row : Txn) : Holdings :=
  if row.stock ≠ CASH ∧ (lookupH hs row.stock).isNone then
    hs ++ [(row.stock, initHolding row)]
  else hs

/-- Credit the cash sentinel's units (`holdings['CASH EQUIVALENTS']['units'] +=
v`). -/
def cashAdd (hs : Holdings) (v : PV) : Holdings :=
  updateH hs CASH (fun h => { h with units := pAdd h.units v })

/-- Debit the cash sentinel's units (`holdings['CASH EQUIVALENTS']['units'] -=
v`). -/
def cashSub (hs : Holdings) (v : PV) : Holdings :=
  updateH hs CASH (fun h => { h with units := pSub h.units v })

/-- One step of the holdings replay: the transaction-type dispatch of
`FinanceCalculator.calculate_stock_holdings` (`analysis_service.py` lines
151-208), transcribed branch by branch. -/
def stepTxn (hs0 : Holdings) (row : Txn) : Holdings :=
  let symbol := row.stock
  let tt := row.transaction_type
  let hs := ensureSymbol hs0 row
  if tt = "buy" ∨ tt = "reinvest" ∨ tt = "stock_transfer" then
    let hs :=
      if pNotna row.units ∧ pNotna row.price then
        updateH hs symbol (fun h =>
          { h with
              units := pAdd h.units row.units
              cost_basis := pAdd h.cost_basis (pAdd (pMul row.units row.price) row.fee) })
      else hs
    if tt ≠ "stock_transfer" then
      let total_cost :=
        if pNotna row.amount ∧ pNeZero row.amount then pAbs row.amount
        else pAdd (pMul row.units row.price) row.fee
      cashSub hs total_cost
    else hs
  else if tt = "sell" then
    let hs :=
      if pNotna row.units ∧ pNotna row.price then
        updateH hs symbol (fun h =>
          let h1 :=
            if pGtZero h.units then
              { h with cost_basis := pSub h.cost_basis (pMul row.units (pDiv h.cost_basis h.units)) }
            else h
          { h1 with units := pSub h1.units row.units })
      else hs
    let proceeds :=
      if pNotna row.amount ∧ pNeZero row.amount then pAbs row.amount
      else pSub (pMul row.units row.price) row.fee
    cashAdd hs proceeds
  else if tt = "transfer" then
    if row.security_type = "cash" then
      cashAdd hs (if pNotna row.amount ∧ pNeZero row.amount then row.amount else row.units)
    else hs
  else if tt = "dividend" then
    cashAdd hs (if pNotna row.amount ∧ pNeZero row.amount then pAbs row.amount else row.units)
  else if tt = "interest" then
    cashAdd hs (if pNotna row.amount ∧ pNeZero row.amount then pAbs row.amount else row.units)
  else if tt = "sell_to_open" ∨ tt = "sell_to_close" ∨ tt = "buy_to_open" ∨ tt = "buy_to_close" then
    let premium :=
      if pNotna row.amount ∧ pNeZero row.amount then pAbs row.amount
      else pSub (pMul row.units row.price) row.fee
    if tt = "sell_to_open" ∨ tt = "sell_to_close" then cashAdd hs premium
    else cashSub hs premium
  else if tt = "split" ∧ row.security_type = "stock" then
    if pNotna row.units ∧ pNeZero row.units then
      updateH hs symbol (fun h => { h with units := pAdd h.units row.units })
    else hs
  else hs

/-- Transactions sorted chronologically (`df.sort_values('date')`).  Insertion
sort is used as the executable date sort; all theorems below either quantify
over the sorted list itself or use ledgers with pairwise-distinct dates, so the
tie-breaking order among equal dates is irrelevant. -/
def sortByDate (l : List Txn) : List Txn :=
  List.insertionSort (fun a b => a.date ≤ b.date) l

/-- The initial cash position (`analysis_service.py` lines 142-148). -/
def initCash (asOf : Nat) : Holding :=
  { units := some 0
    security_type := "cash"
    cost_basis := some 0
    last_price := some 1
    market_value := some 0
    weight := some 0
    last_update := asOf }

/-- The date-filtered, date-sorted transaction list replayed by
`calculate_stock_holdings` for a given as-of date. -/
def sortedLedger (df : List Txn) (asOf : Nat) : List Txn :=
  sortByDate (df.filter (fun t => t.date ≤ asOf))

/-- Market-value and weight assignment:
`FinanceCalculator._calculate_portfolio_values` (`analysis_service.py` lines
76-125).  The external price lookup (Yahoo via `get_current_price`, or the
batch price frame) is abstracted as `priceOf`; the source always produces a
plain float from it (0.0 on failure). -/
def priceEntry (priceOf : String → ℚ) (s : String) (h : Holding) : Holding :=
  let lp : PV :=
    if s = CASH then some 1
    else if s = FIXED_INCOME then some 100
    else some (priceOf s)
  { h with last_price := lp, market_value := pMul h.units lp }

/-- The zero-position filter and pricing pass of
`_calculate_portfolio_values` (lines 87-117). -/
def pricedHoldings (priceOf : String → ℚ) (hs : Holdings) : Holdings :=
  (hs.filter (fun kv => kv.2.units ≠ some 0 ∨ kv.1 = CASH)).map (fun kv =>
    (kv.1, priceEntry priceOf kv.1 kv.2))

/-- The running total `total_market_value` accumulated by
`_calculate_portfolio_values` (starting from 0, NaN-propagating like the
Python float sum). -/
def totalMarketValue (hs : Holdings) : PV :=
  (hs.map (fun kv => kv.2.market_value)).foldl pAdd (some 0)

/-- The weight pass of `_calculate_portfolio_values` (lines 120-123):
`weight = market_value / total` when the total is strictly positive, else 0. -/
def weightEntry (total : PV) (h : Holding) : Holding :=
  { h with weight := if pGtZero total then pDiv h.market_value total else some 0 }

/-- Application of the weight pass across the snapshot. -/
def assignWeights (total : PV) (hs : Holdings) : Holdings :=
  hs.map (fun kv => (kv.1, weightEntry total kv.2))

/-- Composition of the passes of `_calculate_portfolio_values`: drop zero
positions (keeping cash), price and value each survivor, then weight against
the total market value. -/
def calculatePortfolioValues (priceOf : String → ℚ) (hs : Holdings) : Holdings :=
  assignWeights (totalMarketValue (pricedHoldings priceOf hs)) (pricedHoldings priceOf hs)

/-- `FinanceCalculator.calculate_stock_holdings` (`analysis_service.py` lines
127-217): filter to the as-of date, replay chronologically from an initial
cash-only state, reset the cash cost basis to the cash units, then price and
weight the snapshot. -/
def calculate_stock_holdings (priceOf : String → ℚ) (df : List Txn) (asOf : Nat) : Holdings :=
  if df = [] then []
  else
    let hs := (sortedLedger df asOf).foldl stepTxn [(CASH, initCash asOf)]
    let hs := updateH hs CASH (fun h => { h with cost_basis := h.units })
    calculatePortfolioValues priceOf hs

/-- Units of a symbol in a holdings dictionary (NaN when absent, mirroring
that the source never reads units of an absent key). -/
def unitsOf (hs : Holdings) (s : String) : PV :=
  match lookupH hs s with
  | some h => h.units
  | none => none

/-- Units of a symbol, defaulting to 0 when the symbol has no entry yet: the
value the replay would see right after lazily initializing the symbol. -/
def unitsOrZero (hs : Holdings) (s : String) : PV :=
  match lookupH hs s with
  | some h => h.units
  | none => some 0

/-- Cost basis of a symbol in a holdings dictionary (NaN when absent). -/
def costBasisOf (hs : Holdings) (s : String) : PV :=
  match lookupH hs s with
  | some h => h.cost_basis
  | none => none

/-- Per-symbol accumulator of `FinanceCalculator.calculate_gain_loss`
(`analysis_service.py` lines 234-239). -/
structure GLState where
  running_units : PV
  total_cost_basis : PV
  realized_gain_loss : PV
  dividend_income : PV
  option_gain_loss : PV
deriving DecidableEq

/-- The all-zero initial gain/loss accumulator. -/
def glInit : GLState :=
  { running_units := some 0
    total_cost_basis := some 0
    realized_gain_loss := some 0
    dividend_income := some 0
    option_gain_loss := some 0 }

/-- One step of the per-symbol gain/loss replay (`analysis_service.py` lines
242-265).  The source guards the dividend branch with the vacuous extra test
`txn type != 'reinvest'` (always true inside that branch), which is dropped;
the dividend and option branches test `pd.notna(amount)` without the `!= 0`
check used in the holdings replay. -/
def glStep (st : GLState) (txn : Txn) : GLState :=
  let tt := txn.transaction_type
  if tt = "buy" ∨ tt = "reinvest" ∨ tt = "stock_transfer" then
    { st with
        running_units := pAdd st.running_units txn.units
        total_cost_basis := pAdd st.total_cost_basis (pAdd (pMul txn.units txn.price) txn.fee) }
  else if tt = "sell" then
    if pGtZero st.running_units then
      let cost_per_unit := pDiv st.total_cost_basis st.running_units
      { st with
          realized_gain_loss :=
            pAdd st.realized_gain_loss (pSub (pMul txn.units (pSub txn.price cost_per_unit)) txn.fee)
          total_cost_basis := pSub st.total_cost_basis (pMul txn.units cost_per_unit)
          running_units := pSub st.running_units txn.units }
    else st
  else if tt = "dividend" then
    { st with
        dividend_income :=
          pAdd st.dividend_income (if pNotna txn.amount then pAbs txn.amount else txn.units) }
  else if tt = "sell_to_open" ∨ tt = "sell_to_close" ∨ tt = "buy_to_open" ∨ tt = "buy_to_close" then
    let premium :=
      if pNotna txn.amount then pAbs txn.amount else pSub (pMul txn.units txn.price) txn.fee
    if tt = "sell_to_open" ∨ tt = "sell_to_close" then
      { st with option_gain_loss := pAdd st.option_gain_loss premium }
    else
      { st with option_gain_loss := pSub st.option_gain_loss premium }
  else st

/-- One per-symbol record of the `calculate_gain_loss` result
(`analysis_service.py` lines 294-308). -/
structure GLRec where
  current_units : PV
  market_value : PV
  total_cost_basis : PV
  adjusted_cost_basis : PV
  realized_gain_loss : PV
  unrealized_gain_loss : PV
  unrealized_gain_loss_pct : PV
  dividend_income : PV
  option_gain_loss : PV
  total_return : PV
  total_return_pct : PV
  last_price : PV
deriving DecidableEq

/-- Assemble a symbol's `GLRec` from its replayed accumulator and its current
holding (`analysis_service.py` lines 267-308).  `holding?` is
`holdings.get(symbol, default)` with the zero default of lines 268-272. -/
def mkGLRec (symbol : String) (txns : List Txn) (holding? : Option Holding) : GLRec :=
  let st := txns.foldl glStep glInit
  let ch_units : PV := match holding? with | some h => h.units | none => some 0
  let ch_price : PV := match holding? with | some h => h.last_price | none => some 0
  let total_cost_basis := if symbol = CASH then ch_units else st.total_cost_basis
  let market_value := pMul ch_units ch_price
  let unrealized := if pGtZero ch_units then pSub market_value total_cost_basis else some 0
  let adjusted :=
    if symbol = CASH ∨ symbol = FIXED_INCOME then total_cost_basis
    else pSub (pSub (pSub total_cost_basis st.realized_gain_loss) st.dividend_income) st.option_gain_loss
  let total_return := pAdd (pAdd (pAdd st.realized_gain_loss unrealized) st.dividend_income) st.option_gain_loss
  { current_units := ch_units
    market_value := market_value
    total_cost_basis := total_cost_basis
    adjusted_cost_basis := adjusted
    realized_gain_loss := st.realized_gain_loss
    unrealized_gain_loss := unrealized
    unrealized_gain_loss_pct :=
      if pGtZero total_cost_basis then pDiv unrealized total_cost_basis else some 0
    dividend_income := st.dividend_income
    option_gain_loss := st.option_gain_loss
    total_return := total_return
    total_return_pct :=
      if pGtZero total_cost_basis then pDiv total_return total_cost_basis else some 0
    last_price := ch_price }

/-- The distinct symbols of a ledger (`set(df['stock'].unique())`; the set
iteration order is immaterial to every property proved below). -/
def uniqueStocks (df : List Txn) : List String :=
  (df.map (fun t => t.stock)).dedup

/-- `FinanceCalculator.calculate_gain_loss` (`analysis_service.py` lines
219-310): current holdings are computed as of `now`, then each symbol's
transactions are replayed chronologically over the full (unfiltered) ledger. -/
def calculate_gain_loss (priceOf : String → ℚ) (df : List Txn) (now : Nat) :
    List (String × GLRec) :=
  if df = [] then []
  else
    let holdings := calculate_stock_holdings priceOf df now
    (uniqueStocks df).map (fun s =>
      (s, mkGLRec s (sortByDate (df.filter (fun t => t.stock = s))) (lookupH holdings s)))

/-- Sum of the `total_cost_basis` field over a gain/loss result. -/
def sumTotalCostBasis (gl : List (String × GLRec)) : PV :=
  (gl.map (fun kv => kv.2.total_cost_basis)).foldl pAdd (some 0)

/-- The cache refresh interval of `PriceManager.__init__`
(`price_service.py` line 21: `timedelta(days=365)`), in days. -/
def download_interval : ℚ := 365

/-- Where `PriceManager.get_price` obtains its answer. -/
inductive PriceFetch
  | memory
  | dbFinal
  | dbFresh
  | download
deriving DecidableEq

/-- The cache-consultation order of `PriceManager.get_price`
(`price_service.py` lines 42-97), with timestamps measured in days
(`julianday` units): serve the memory cache if its entry is younger than
`download_interval`; otherwise serve a persisted row as final when its
`updated_at` is at least one day after the price's date; otherwise serve it
only while younger than `download_interval`; otherwise download afresh.
`memHit` states that the key is present in both `_memory_cache` and
`_last_download_time`, and `memAge` is `now` minus the stored download time;
`dbRow` is the `(price, updated_at)` row of `price_cache` for the key. -/
def get_price_lookup (memHit : Bool) (memAge : ℚ) (dbRow : Option (ℚ × ℚ))
    (dateJ now : ℚ) : PriceFetch :=
  if memHit ∧ memAge < download_interval then PriceFetch.memory
  else
    match dbRow with
    | some pu =>
        if pu.2 - dateJ ≥ 1 then PriceFetch.dbFinal
        else if now - pu.2 < download_interval then PriceFetch.dbFresh
        else PriceFetch.download
    | none => PriceFetch.download

/-- `PriceManager._download_single_price` (`price_service.py` lines 167-200)
after the trading-day walk has fixed the effective date: the external source
either raises (`Except.error`) or returns a list of `(date, close)` rows.  The
`try/except` of the source is modelled by totality: every outcome, including a
raised download error, produces a plain number. -/
def download_single_price (asOf : Nat) (dl : Except String (List (Nat × ℚ))) : ℚ :=
  match dl with
  | Except.error _ => 0
  | Except.ok rows =>
      if rows.isEmpty then 0
      else
        match (rows.filter (fun r => r.1 ≤ asOf)).getLast? with
        | some r => r.2
        | none => 0

/-- An IEEE-style value for the performance-metric math of
`calculate_performance`: a finite value (idealized as a rational), NaN, or a
signed infinity. -/
inductive PF
  | num (q : ℚ)
  | nan
  | inf
  | ninf
deriving DecidableEq

/-- Model of `np.isnan`. -/
def PF.isNan : PF → Bool
  | PF.nan => true
  | _ => false

/-- Model of `np.isinf` (true for either signed infinity). -/
def PF.isInfinite : PF → Bool
  | PF.inf => true
  | PF.ninf => true
  | _ => false

/-- Float addition on extended values. -/
def PF.add : PF → PF → PF
  | PF.nan, _ => PF.nan
  | _, PF.nan => PF.nan
  | PF.inf, PF.ninf => PF.nan
  | PF.ninf, PF.inf => PF.nan
  | PF.inf, _ => PF.inf
  | _, PF.inf => PF.inf
  | PF.ninf, _ => PF.ninf
  | _, PF.ninf => PF.ninf
  | PF.num a, PF.num b => PF.num (a + b)

/-- Float negation on extended values. -/
def PF.neg : PF → PF
  | PF.num a => PF.num (-a)
  | PF.nan => PF.nan
  | PF.inf => PF.ninf
  | PF.ninf => PF.inf

/-- Float subtraction on extended values. -/
def PF.sub (a b : PF) : PF := PF.add a (PF.neg b)

/-- Float multiplication on extended values (0 times an infinity is NaN). -/
def PF.mul : PF → PF → PF
  | PF.nan, _ => PF.nan
  | _, PF.nan => PF.nan
  | PF.num a, PF.num b => PF.num (a * b)
  | PF.inf, PF.num b => if b = 0 then PF.nan else if 0 < b then PF.inf else PF.ninf
  | PF.num a, PF.inf => if a = 0 then PF.nan else if 0 < a then PF.inf else PF.ninf
  | PF.ninf, PF.num b => if b = 0 then PF.nan else if 0 < b then PF.ninf else PF.inf
  | PF.num a, PF.ninf => if a = 0 then PF.nan else if 0 < a then PF.ninf else PF.inf
  | PF.inf, PF.inf => PF.inf
  | PF.ninf, PF.ninf => PF.inf
  | PF.inf, PF.ninf => PF.ninf
  | PF.ninf, PF.inf => PF.ninf

/-- Numpy float division on extended values (division by zero yields an
infinity or NaN with a warning, never an exception). -/
def PF.div : PF → PF → PF
  | PF.nan, _ => PF.nan
  | _, PF.nan => PF.nan
  | PF.num a, PF.num b =>
      if b = 0 then (if a = 0 then PF.nan else if 0 < a then PF.inf else PF.ninf)
      else PF.num (a / b)
  | PF.inf, PF.num b => if 0 ≤ b then PF.inf else PF.ninf
  | PF.ninf, PF.num b => if 0 ≤ b then PF.ninf else PF.inf
  | PF.num _, PF.inf => PF.num 0
  | PF.num _, PF.ninf => PF.num 0
  | _, _ => PF.nan

/-- Python comparison `x > 0` on an extended value (NaN compares false). -/
def PF.gtZero : PF → Bool
  | PF.num a => decide (0 < a)
  | PF.inf => true
  | _ => false

/-- Model of `np.clip(x, lo, hi)`. -/
def PF.clip (x : PF) (lo hi : ℚ) : PF :=
  match x with
  | PF.num a => PF.num (min (max a lo) hi)
  | PF.nan => PF.nan
  | PF.inf => PF.num hi
  | PF.ninf => PF.num lo

/-- Model of `np.prod` over a list of extended values. -/
def prodPF (l : List PF) : PF := l.foldl PF.mul (PF.num 1)

/-- The weekly-return series `np.diff(values) / values[:-1]`
(`analysis_service.py` line 550). -/
def weeklyReturns (values : List PF) : List PF :=
  (values.zip values.tail).map (fun ab => PF.div (PF.sub ab.2 ab.1) ab.1)

/-- The JSON clamp bound `1e300` used by `calculate_performance`. -/
def clampBound : ℚ := 10 ^ 300

/-- The metrics block of `FinanceCalculator.calculate_performance`
(`analysis_service.py` lines 546-598), over the sampled portfolio values.
`powf` abstracts the float power `cumulative ** (52 / n)` and `volf` abstracts
`np.std(weekly_returns) * np.sqrt(52)`: both may return any extended value,
including NaN or an infinity — the guards of the source are what is being
verified.  The `try/except` around the block (whose handler also writes plain
zeros) is modelled by totality. -/
def computeMetrics (powf : PF → ℚ → PF) (volf : List PF → PF) (values : List PF) :
    List (String × PF) :=
  if values.length > 1 then
    let wr := (weeklyReturns values).filter (fun x => !x.isNan && !x.isInfinite)
    if wr.length > 0 ∧ ¬ wr.any PF.isNan ∧ ¬ wr.any PF.isInfinite then
      let cumulative := prodPF (wr.map (PF.add (PF.num 1)))
      if PF.gtZero cumulative then
        let annualized := PF.sub (powf cumulative ((52 : ℚ) / wr.length)) (PF.num 1)
        let volatility := volf wr
        let sharpe :=
          if PF.gtZero volatility then PF.div (PF.sub annualized (PF.num (2 / 100))) volatility
          else PF.num 0
        [("annualized_return",
            if annualized.isNan || annualized.isInfinite then PF.num 0
            else PF.clip annualized (-clampBound) clampBound),
         ("volatility",
            if volatility.isNan || volatility.isInfinite then PF.num 0
            else PF.clip volatility 0 clampBound),
         ("sharpe_ratio",
            if sharpe.isNan || sharpe.isInfinite then PF.num 0
            else PF.clip sharpe (-clampBound) clampBound)]
      else
        [("annualized_return", PF.num 0), ("volatility", PF.num 0), ("sharpe_ratio", PF.num 0)]
    else
      [("annualized_return", PF.num 0), ("volatility", PF.num 0), ("sharpe_ratio", PF.num 0)]
  else []

/-- The KO purchase of the spec's scenario ledgers: buy 100 units at 66 with
no fee on 2024-11-08. -/
def koBuy : Txn :=
  { date := 20241108, stock := "KO", transaction_type := "buy", units := some 100,
    price := some 66, fee := some 0, security_type := "stock", amount := none }

/-- The KO sale of the spec's sell scenario: sell 50 units at 70 with no fee. -/
def koSell : Txn :=
  { date := 20241215, stock := "KO", transaction_type := "sell", units := some 50,
    price := some 70, fee := some 0, security_type := "stock", amount := none }

/-- The gain/loss record produced for KO from the one-transaction ledger
`[koBuy]` (used to witness the adjusted-cost-basis rule). -/
def koGLRec : GLRec :=
  mkGLRec "KO" (sortByDate ([koBuy].filter (fun t => t.stock = "KO")))
    (lookupH (calculate_stock_holdings (fun _ => 0) [koBuy] 20250101) "KO")

/-- Sum of the `weight` field over a holdings snapshot, accumulated like the
Python float sum. -/
def sumWeights (hs : Holdings) : PV :=
  (hs.map (fun kv => kv.2.weight)).foldl pAdd (some 0)

/-- A concrete cash-only holdings dictionary with five cash units, used to
witness weight normalization. -/
def cashFive : Holding :=
  { units := some 5, security_type := "cash", cost_basis := some 5,
    last_price := some 1, market_value := some 0, weight := some 0, last_update := 0 }

/-- The SWVXX money-market reinvestment of the spec's scenario ledger:
reinvest 16.19 units at price 1.00 with no fee on 2024-12-31. -/
def swvxxReinvest : Txn :=
  { date := 20241231, stock := "SWVXX", transaction_type := "reinvest",
    units := some (1619 / 100), price := some 1, fee := some 0,
    security_type := "cash", amount := none }

/-- The replay state after the KO buy of the scenario ledger. -/
def ksState1 : Holdings :=
  [(CASH, { units := some (-6600), security_type := "cash", cost_basis := some 0,
            last_price := some 1, market_value := some 0, weight := some 0,
            last_update := 20241231 }),
   ("KO", { units := some 100, security_type := "stock", cost_basis := some 6600,
            last_price := some 0, market_value := some 0, weight := some 0,
            last_update := 20241108 })]

/-- The replay state after the KO buy and the SWVXX reinvestment. -/
def ksState2 : Holdings :=
  [(CASH, { units := some (-(661619 / 100)), security_type := "cash", cost_basis := some 0,
            last_price := some 1, market_value := some 0, weight := some 0,
            last_update := 20241231 }),
   ("KO", { units := some 100, security_type := "stock", cost_basis := some 6600,
            last_price := some 0, market_value := some 0, weight := some 0,
            last_update := 20241108 }),
   ("SWVXX", { units := some (1619 / 100), security_type := "cash",
               cost_basis := some (1619 / 100), last_price := some 0, market_value := some 0,
               weight := some 0, last_update := 20241231 })]

/-- The scenario replay state after the cash cost-basis reset. -/
def ksState3 : Holdings :=
  [(CASH, { units := some (-(661619 / 100)), security_type := "cash",
            cost_basis := some (-(661619 / 100)), last_price := some 1, market_value := some 0,
            weight := some 0, last_update := 20241231 }),
   ("KO", { units := some 100, security_type := "stock", cost_basis := some 6600,
            last_price := some 0, market_value := some 0, weight := some 0,
            last_update := 20241108 }),
   ("SWVXX", { units := some (1619 / 100), security_type := "cash",
               cost_basis := some (1619 / 100), last_price := some 0, market_value := some 0,
               weight := some 0, last_update := 20241231 })]

/-- All units stored for non-cash symbols are finite and nonnegative. -/
def NonnegUnits (hs : Holdings) : Prop :=
  ∀ p ∈ hs, p.1 ≠ CASH → ∃ q : ℚ, p.2.units = some q ∧ 0 ≤ q

/-- The keys of the holdings dictionary are pairwise distinct (a Python dict
invariant). -/
def KeysNodup (hs : Holdings) : Prop :=
  (hs.map Prod.fst).Nodup

/-- Every position-increasing transaction (buy, reinvest, stock transfer,
split) carries a nonnegative unit count when one is present. -/
def BuyUnitsNonneg (txns : List Txn) : Prop :=
  ∀ t ∈ txns,
    (t.transaction_type = "buy" ∨ t.transaction_type = "reinvest" ∨
      t.transaction_type = "stock_transfer" ∨ t.transaction_type = "split") →
    ∀ u : ℚ, t.units = some u → 0 ≤ u

/-- Every non-cash sell in the list is covered by the units held for its
symbol at the moment it is replayed from the start state `hs0`. -/
def SellsCovered (hs0 : Holdings) (txns : List Txn) : Prop :=
  ∀ i : Nat, ∀ hi : i < txns.length,
    (txns.get ⟨i, hi⟩).transaction_type = "sell" →
    (txns.get ⟨i, hi⟩).stock ≠ CASH →
    ∀ u : ℚ, (txns.get ⟨i, hi⟩).units = some u →
      ∃ q : ℚ,
        unitsOrZero ((txns.take i).foldl stepTxn hs0) (txns.get ⟨i, hi⟩).stock = some q ∧
        u ≤ q

/-- C2 counterexample input: a sell of 20 AAPL units with no prior purchase. -/
def overSell : Txn :=
  { date := 5, stock := "AAPL", transaction_type := "sell", units := some 20,
    price := some 10, fee := some 0, security_type := "stock", amount := none }

/-- C2 amended witness input: buy 10 AAPL units at 5. -/
def witBuy : Txn :=
  { date := 1, stock := "AAPL", transaction_type := "buy", units := some 10,
    price := some 5, fee := some 0, security_type := "stock", amount := none }

/-- C2 amended witness input: sell 4 of the 10 held AAPL units at 6. -/
def witSell : Txn :=
  { date := 2, stock := "AAPL", transaction_type := "sell", units := some 4,
    price := some 6, fee := some 0, security_type := "stock", amount := none }

theorem lookupH_append_ne (hs : Holdings) (s c : String) (h : Holding) (hne : s ≠ c) :
    lookupH (hs ++ [(s, h)]) c = lookupH hs c := by
  induction hs with
  | nil => simp [lookupH, hne]
  | cons kv rest ih => by_cases hk : kv.1 = c <;> simp [lookupH, hk, ih]

theorem lookupH_updateH_ne (hs : Holdings) (s c : String) (f : Holding → Holding)
    (hne : s ≠ c) : lookupH (updateH hs s f) c = lookupH hs c := by
  induction hs with
  | nil => rfl
  | cons kv rest ih =>
      by_cases hk : kv.1 = s
      · have hkc : kv.1 ≠ c := by rw [hk]; exact hne
        simp only [updateH, List.map_cons, if_pos hk] at ih ⊢
        simp only [lookupH, if_neg hkc]
        exact ih
      · by_cases hc : kv.1 = c
        · simp only [updateH, List.map_cons, if_neg hk]
          simp only [lookupH, if_pos hc]
        · simp only [updateH, List.map_cons, if_neg hk] at ih ⊢
          simp only [lookupH, if_neg hc]
          exact ih

theorem lookupH_updateH_self (hs : Holdings) (s : String) (f : Holding → Holding) :
    lookupH (updateH hs s f) s = (lookupH hs s).map f := by
  induction hs with
  | nil => rfl
  | cons kv rest ih =>
      by_cases hk : kv.1 = s
      · simp only [updateH, List.map_cons, if_pos hk]
        simp only [lookupH, if_pos hk]
        rfl
      · simp only [updateH, List.map_cons, if_neg hk] at ih ⊢
        simp only [lookupH, if_neg hk]
        exact ih

theorem unitsOf_cashSub (hs : Holdings) (v : PV) :
    unitsOf (cashSub hs v) CASH = pSub (unitsOf hs CASH) v := by
  unfold unitsOf cashSub
  rw [lookupH_updateH_self]
  cases lookupH hs CASH with
  | none => cases v <;> rfl
  | some h => rfl

theorem unitsOf_cashAdd (hs : Holdings) (v : PV) :
    unitsOf (cashAdd hs v) CASH = pAdd (unitsOf hs CASH) v := by
  unfold unitsOf cashAdd
  rw [lookupH_updateH_self]
  cases lookupH hs CASH with
  | none => cases v <;> rfl
  | some h => rfl

theorem unitsOf_ensureSymbol (hs : Holdings) (t : Txn) (c : String) (hne : t.stock ≠ c) :
    unitsOf (ensureSymbol hs t) c = unitsOf hs c := by
  unfold ensureSymbol
  split
  · unfold unitsOf
    rw [lookupH_append_ne _ _ _ _ hne]
  · rfl

theorem unitsOf_updateH_ne (hs : Holdings) (s c : String) (f : Holding → Holding)
    (hne : s ≠ c) : unitsOf (updateH hs s f) c = unitsOf hs c := by
  unfold unitsOf
  rw [lookupH_updateH_ne _ _ _ _ hne]

/-- C10: in the holdings replay, a transaction whose `amount` is present but
zero takes exactly the same step as the same transaction with `amount`
missing: every cash-effect branch tests `pd.notna(amount) and amount != 0`
before using it and otherwise falls back to the units/price/fee formula
(for buy/sell/option legs) or to `txn.units` (for transfer/dividend/interest). -/
theorem zero_amount_same_as_missing (hs : Holdings) (t : Txn) :
    stepTxn hs { t with amount := some 0 } = stepTxn hs { t with amount := none } := by
  simp [stepTxn, ensureSymbol, initHolding, pNotna, pNeZero]

/-- C4: a buy of 10 units at price 50 with fee 1 and no amount override debits
the cash sentinel's units by exactly `10 * 50 + 1 = 501` when replayed by
`calculate_stock_holdings`. -/
theorem buy_debits_cash_501 (hs : Holdings) (t : Txn)
    (htt : t.transaction_type = "buy") (hst : t.stock ≠ CASH)
    (hu : t.units = some 10) (hp : t.price = some 50) (hf : t.fee = some 1)
    (ha : t.amount = none) :
    unitsOf (stepTxn hs t) CASH = pSub (unitsOf hs CASH) (some 501) := by
  simp only [stepTxn, htt, ha, hu, hp, hf]
  norm_num [pNotna]
  rw [if_neg (by decide : ¬("buy" = "stock_transfer"))]
  rw [unitsOf_cashSub, unitsOf_updateH_ne _ _ _ _ hst, unitsOf_ensureSymbol hs t CASH hst]
  norm_num [pAdd, pMul]

/-- C4 witness: replaying the single-transaction ledger containing that buy
from the initial cash-only state leaves the cash sentinel at exactly `-501`. -/
theorem buy_debits_cash_501_witness :
    unitsOf
      (stepTxn [(CASH, initCash 0)]
        { date := 1, stock := "AAPL", transaction_type := "buy", units := some 10,
          price := some 50, fee := some 1, security_type := "stock", amount := none })
      CASH = some (-501) := by
  have h := buy_debits_cash_501 [(CASH, initCash 0)]
    { date := 1, stock := "AAPL", transaction_type := "buy", units := some 10,
      price := some 50, fee := some 1, security_type := "stock", amount := none }
    rfl (by decide) rfl rfl rfl rfl
  rw [h]
  norm_num [unitsOf, lookupH, initCash, pSub]

/-- C1: on a sell processed by the gain/loss replay while the running unit
count is strictly positive, realized gain/loss grows by
`units_sold * (sale_price - cost_per_unit) - fee` and the running cost basis
shrinks by `units_sold * cost_per_unit`, where `cost_per_unit` is the average
cost `total_cost_basis / running_units` before the sale. -/
theorem sell_realized_gain_step (st : GLState) (t : Txn) (u tcb r us p f : ℚ)
    (htt : t.transaction_type = "sell")
    (hu : st.running_units = some u) (hu0 : 0 < u)
    (htcb : st.total_cost_basis = some tcb)
    (hr : st.realized_gain_loss = some r)
    (hus : t.units = some us) (hp : t.price = some p) (hf : t.fee = some f) :
    (glStep st t).realized_gain_loss = some (r + (us * (p - tcb / u) - f)) ∧
    (glStep st t).total_cost_basis = some (tcb - us * (tcb / u)) ∧
    (glStep st t).running_units = some (u - us) := by
  have hgt : pGtZero st.running_units = true := by
    rw [hu]; simp only [pGtZero, decide_eq_true_eq]; exact hu0
  simp only [glStep, htt, ite_true, ite_false]
  norm_num [hgt]
  rw [hu, htcb, hr, hus, hp, hf]
  simp only [pDiv, if_neg hu0.ne', pAdd, pSub, pMul]
  exact ⟨rfl, rfl, rfl⟩

/-- C1 witness: in the ledger [buy 100 KO at 66 fee 0, sell 50 KO at 70 fee 0]
the sell is replayed with 100 running units at average cost 66, and yields
realized gain `50 * (70 - 66) - 0 = 200` with remaining cost basis
`6600 - 50 * 66 = 3300`. -/
theorem sell_realized_gain_step_witness :
    (glStep (glStep glInit koBuy) koSell).realized_gain_loss = some 200 ∧
    (glStep (glStep glInit koBuy) koSell).total_cost_basis = some 3300 ∧
    (glStep (glStep glInit koBuy) koSell).running_units = some 50 := by
  have hst : glStep glInit koBuy =
      { running_units := some 100, total_cost_basis := some 6600,
        realized_gain_loss := some 0, dividend_income := some 0,
        option_gain_loss := some 0 } := by
    simp only [glStep, glInit, koBuy]
    norm_num [pAdd, pMul]
  have h := sell_realized_gain_step (glStep glInit koBuy) koSell 100 6600 0 50 70 0
    rfl (by rw [hst]) (by norm_num) (by rw [hst]) (by rw [hst]) rfl rfl rfl
  refine ⟨?_, ?_, ?_⟩
  · rw [h.1]; norm_num
  · rw [h.2.1]; norm_num
  · rw [h.2.2]; norm_num

/-- C8: the single-price downloader converts every failure of the external
source into the price 0.0 — a raised download error and an empty result set
both yield 0.0, and the embedded function is total (no exception reaches the
caller). -/
theorem download_failure_yields_zero (asOf : Nat) :
    (∀ e, download_single_price asOf (Except.error e) = 0) ∧
    download_single_price asOf (Except.ok []) = 0 :=
  ⟨fun _ => rfl, rfl⟩

/-- C3 counterexample: a cached price written the same day as its date (not
final) and aged 100 days — far beyond any time-to-live measured in minutes —
is still served from the cache instead of triggering a fresh download. -/
theorem stale_intraday_price_served_from_cache :
    get_price_lookup false 0 (some (10, 5000)) 5000 5100 = PriceFetch.dbFresh ∧
    PriceFetch.dbFresh ≠ PriceFetch.download ∧
    (1 : ℚ) ≤ 5100 - 5000 := by
  refine ⟨?_, by decide, by norm_num⟩
  norm_num [get_price_lookup, download_interval]

/-- C3 amended: with the memory tier missing its entry, a persisted price
whose `updated_at` is at least one day after its date is served from the cache
regardless of age (final), while a non-finalized persisted price is served
from the cache exactly while it is younger than the 365-day
`download_interval`, after which a fresh external download is performed. -/
theorem price_cache_finality_and_ttl (memHit : Bool) (memAge p upd dateJ now : ℚ)
    (hmem : ¬(memHit = true ∧ memAge < download_interval)) :
    (1 ≤ upd - dateJ →
      get_price_lookup memHit memAge (some (p, upd)) dateJ now = PriceFetch.dbFinal) ∧
    (upd - dateJ < 1 → now - upd < download_interval →
      get_price_lookup memHit memAge (some (p, upd)) dateJ now = PriceFetch.dbFresh) ∧
    (upd - dateJ < 1 → download_interval ≤ now - upd →
      get_price_lookup memHit memAge (some (p, upd)) dateJ now = PriceFetch.download) := by
  unfold get_price_lookup
  rw [if_neg hmem]
  dsimp only
  refine ⟨fun h1 => ?_, fun h1 h2 => ?_, fun h1 h2 => ?_⟩
  · rw [if_pos (ge_iff_le.mpr h1)]
  · rw [if_neg (by rw [ge_iff_le]; exact not_le.2 h1), if_pos h2]
  · rw [if_neg (by rw [ge_iff_le]; exact not_le.2 h1), if_neg (not_lt.2 h2)]

/-- C3 amended witness: a price dated day 6000 updated at day 6001 is served
as final 3000 days later; the same-day price of the counterexample would
instead be refreshed once 365 days old. -/
theorem price_cache_finality_and_ttl_witness :
    get_price_lookup false 0 (some (10, 6001)) 6000 9000 = PriceFetch.dbFinal ∧
    get_price_lookup false 0 (some (10, 5000)) 5000 5400 = PriceFetch.download := by
  have h1 := price_cache_finality_and_ttl false 0 10 6001 6000 9000 (by simp)
  have h2 := price_cache_finality_and_ttl false 0 10 5000 5000 5400 (by simp)
  exact ⟨h1.1 (by norm_num), h2.2.2 (by norm_num) (by norm_num [download_interval])⟩

/-- C7: every record produced by `calculate_gain_loss` has
`adjusted_cost_basis = total_cost_basis` for the cash and fixed-income
sentinels, and `adjusted_cost_basis = total_cost_basis - realized_gain_loss -
dividend_income - option_gain_loss` for every other symbol. -/
theorem adjusted_cost_basis_rule (priceOf : String → ℚ) (df : List Txn) (now : Nat) :
    ∀ p ∈ calculate_gain_loss priceOf df now,
      (p.1 = CASH ∨ p.1 = FIXED_INCOME → p.2.adjusted_cost_basis = p.2.total_cost_basis) ∧
      (¬(p.1 = CASH ∨ p.1 = FIXED_INCOME) →
        p.2.adjusted_cost_basis =
          pSub (pSub (pSub p.2.total_cost_basis p.2.realized_gain_loss) p.2.dividend_income)
            p.2.option_gain_loss) := by
  intro p hp
  unfold calculate_gain_loss at hp
  split at hp
  · simp at hp
  · obtain ⟨s, hs, rfl⟩ := List.mem_map.1 hp
    refine ⟨fun hsent => ?_, fun hsent => ?_⟩
    · simp only [mkGLRec]
      rw [if_pos hsent]
    · simp only [mkGLRec]
      rw [if_neg hsent]

/-- C7 witness: for the concrete ledger `[koBuy]`, the KO record of
`calculate_gain_loss` satisfies the non-sentinel adjusted-cost-basis
equation. -/
theorem adjusted_cost_basis_rule_witness :
    ¬("KO" = CASH ∨ "KO" = FIXED_INCOME) ∧
    koGLRec.adjusted_cost_basis =
      pSub (pSub (pSub koGLRec.total_cost_basis koGLRec.realized_gain_loss)
        koGLRec.dividend_income) koGLRec.option_gain_loss := by
  have hne : ¬(("KO", koGLRec).1 = CASH ∨ ("KO", koGLRec).1 = FIXED_INCOME) := by
    decide
  have hmem : ("KO", koGLRec) ∈ calculate_gain_loss (fun _ => 0) [koBuy] 20250101 := by
    unfold calculate_gain_loss
    rw [if_neg (by decide : ¬([koBuy] = []))]
    simp [uniqueStocks, koBuy, koGLRec]
  have h := adjusted_cost_basis_rule (fun _ => 0) [koBuy] 20250101 ("KO", koGLRec) hmem
  exact ⟨hne, h.2 hne⟩

theorem totalMarketValue_assignWeights (total : PV) (hs : Holdings) :
    totalMarketValue (assignWeights total hs) = totalMarketValue hs := by
  unfold totalMarketValue assignWeights
  rw [List.map_map]
  rfl

theorem pAdd_pDiv_distrib (a b : PV) (t : ℚ) (ht : t ≠ 0) :
    pAdd (pDiv a (some t)) (pDiv b (some t)) = pDiv (pAdd a b) (some t) := by
  cases a with
  | none => rfl
  | some x =>
      cases b with
      | none => simp [pAdd, pDiv, ht]
      | some y =>
          simp only [pAdd, pDiv, if_neg ht]
          rw [div_add_div_same]

theorem foldl_pAdd_div_mv (l : Holdings) (t : ℚ) (ht : t ≠ 0) (acc : PV) :
    (l.map (fun kv => pDiv kv.2.market_value (some t))).foldl pAdd (pDiv acc (some t)) =
      pDiv ((l.map (fun kv => kv.2.market_value)).foldl pAdd acc) (some t) := by
  induction l generalizing acc with
  | nil => rfl
  | cons x xs ih =>
      simp only [List.map_cons, List.foldl_cons]
      rw [pAdd_pDiv_distrib _ _ _ ht, ih]

/-- C6: in a snapshot produced by `_calculate_portfolio_values`, whenever the
total market value is a strictly positive number the weights sum to exactly 1,
and whenever it is zero or negative every weight is exactly 0. -/
theorem portfolio_weights_normalized (priceOf : String → ℚ) (hs : Holdings) (t : ℚ)
    (htot : totalMarketValue (calculatePortfolioValues priceOf hs) = some t) :
    (0 < t → sumWeights (calculatePortfolioValues priceOf hs) = some 1) ∧
    (t ≤ 0 → ∀ p ∈ calculatePortfolioValues priceOf hs, p.2.weight = some 0) := by
  unfold calculatePortfolioValues at htot
  rw [totalMarketValue_assignWeights] at htot
  have expand : calculatePortfolioValues priceOf hs =
      assignWeights (some t) (pricedHoldings priceOf hs) := by
    unfold calculatePortfolioValues
    rw [htot]
  constructor
  · intro hpos
    have ht0 : t ≠ 0 := ne_of_gt hpos
    have hgt : pGtZero (some t) = true := by
      simp only [pGtZero, decide_eq_true_eq]; exact hpos
    have hmap : (assignWeights (some t) (pricedHoldings priceOf hs)).map
          (fun kv => kv.2.weight) =
        (pricedHoldings priceOf hs).map (fun kv => pDiv kv.2.market_value (some t)) := by
      unfold assignWeights
      rw [List.map_map]
      have hfun : ((fun kv : String × Holding => kv.2.weight) ∘ fun kv : String × Holding =>
          (kv.1, weightEntry (some t) kv.2)) =
          fun kv : String × Holding => pDiv kv.2.market_value (some t) := by
        funext kv
        simp [Function.comp, weightEntry, hgt]
      rw [hfun]
    unfold sumWeights
    rw [expand, hmap]
    have h0 : (some 0 : PV) = pDiv (some 0) (some t) := by simp [pDiv, ht0]
    rw [h0, foldl_pAdd_div_mv _ t ht0]
    unfold totalMarketValue at htot
    rw [htot]
    simp [pDiv, ht0]
  · intro hle p hp
    rw [expand] at hp
    unfold assignWeights at hp
    obtain ⟨kv, hkv, rfl⟩ := List.mem_map.1 hp
    have hgt : pGtZero (some t) = false := by
      simp only [pGtZero, decide_eq_false_iff_not]; exact not_lt.2 hle
    simp [weightEntry, hgt]

/-- C6 witness: for the one-entry snapshot holding five cash units the total
market value is 5 and the weights sum to exactly 1. -/
theorem portfolio_weights_normalized_witness :
    (0 : ℚ) < 5 ∧
    sumWeights (calculatePortfolioValues (fun _ => 0) [(CASH, cashFive)]) = some 1 := by
  have htot : totalMarketValue (calculatePortfolioValues (fun _ => 0) [(CASH, cashFive)]) =
      some 5 := by
    norm_num [calculatePortfolioValues, pricedHoldings, priceEntry, assignWeights,
      weightEntry, totalMarketValue, cashFive, pMul, pAdd, pDiv, pGtZero]
  exact ⟨by norm_num,
    (portfolio_weights_normalized (fun _ => 0) [(CASH, cashFive)] 5 htot).1 (by norm_num)⟩

theorem clip_or_zero_bounded (x : PF) (lo hi : ℚ) (h1 : lo ≤ 0) (h2 : 0 ≤ hi) :
    ∃ q : ℚ, (if x.isNan || x.isInfinite then PF.num 0 else PF.clip x lo hi) = PF.num q ∧
      lo ≤ q ∧ q ≤ hi := by
  cases x with
  | num a =>
      refine ⟨min (max a lo) hi, ?_, ?_, ?_⟩
      · simp [PF.isNan, PF.isInfinite, PF.clip]
      · exact le_min (le_max_right a lo) (h1.trans h2)
      · exact min_le_right _ _
  | nan => exact ⟨0, by simp [PF.isNan], h1, h2⟩
  | inf => exact ⟨0, by simp [PF.isNan, PF.isInfinite], h1, h2⟩
  | ninf => exact ⟨0, by simp [PF.isNan, PF.isInfinite], h1, h2⟩

/-- C9: whenever at least two weekly samples exist, the metrics block of
`calculate_performance` is non-empty and every metric value is a finite
number within the JSON clamp range `[-1e300, 1e300]`: every non-finite
intermediate is coerced to 0.0 and survivors are clamped. -/
theorem performance_metrics_finite (powf : PF → ℚ → PF) (volf : List PF → PF)
    (values : List PF) (hlen2 : 2 ≤ values.length) :
    computeMetrics powf volf values ≠ [] ∧
    ∀ p ∈ computeMetrics powf volf values,
      ∃ q : ℚ, p.2 = PF.num q ∧ -clampBound ≤ q ∧ q ≤ clampBound := by
  have hB : (0 : ℚ) ≤ clampBound := by norm_num [clampBound]
  have hBn : -clampBound ≤ (0 : ℚ) := by norm_num [clampBound]
  have hlen : values.length > 1 := by omega
  unfold computeMetrics
  rw [if_pos hlen]
  dsimp only
  split
  · split
    · refine ⟨by simp, ?_⟩
      intro p hp
      simp only [List.mem_cons, List.not_mem_nil, or_false] at hp
      rcases hp with rfl | rfl | rfl
      · obtain ⟨q, hq, hql, hqr⟩ :=
          clip_or_zero_bounded _ (-clampBound) clampBound (by linarith) hB
        exact ⟨q, hq, hql, hqr⟩
      · obtain ⟨q, hq, hql, hqr⟩ := clip_or_zero_bounded _ 0 clampBound le_rfl hB
        exact ⟨q, hq, le_trans hBn hql, hqr⟩
      · obtain ⟨q, hq, hql, hqr⟩ :=
          clip_or_zero_bounded _ (-clampBound) clampBound (by linarith) hB
        exact ⟨q, hq, hql, hqr⟩
    · refine ⟨by simp, ?_⟩
      intro p hp
      simp only [List.mem_cons, List.not_mem_nil, or_false] at hp
      rcases hp with rfl | rfl | rfl <;> exact ⟨0, rfl, hBn, hB⟩
  · refine ⟨by simp, ?_⟩
    intro p hp
    simp only [List.mem_cons, List.not_mem_nil, or_false] at hp
    rcases hp with rfl | rfl | rfl <;> exact ⟨0, rfl, hBn, hB⟩

/-- C9 witness: the two-sample list [1, 2] with external float power and
volatility functions that return NaN still yields only finite clamped
metrics. -/
theorem performance_metrics_finite_witness :
    2 ≤ ([PF.num 1, PF.num 2] : List PF).length ∧
    ∀ p ∈ computeMetrics (fun _ _ => PF.nan) (fun _ => PF.nan) [PF.num 1, PF.num 2],
      ∃ q : ℚ, p.2 = PF.num q ∧ -clampBound ≤ q ∧ q ≤ clampBound :=
  ⟨by norm_num,
    (performance_metrics_finite (fun _ _ => PF.nan) (fun _ => PF.nan)
      [PF.num 1, PF.num 2] (by norm_num)).2⟩

theorem lookupH_map_keyed (g : String → Holding → Holding) (hs : Holdings) (s : String) :
    lookupH (hs.map (fun kv => (kv.1, g kv.1 kv.2))) s = (lookupH hs s).map (g s) := by
  induction hs with
  | nil => rfl
  | cons kv rest ih =>
      by_cases hk : kv.1 = s
      · subst hk
        simp [lookupH]
      · simp [lookupH, hk, ih]

theorem lookupH_assignWeights (total : PV) (hs : Holdings) (s : String) :
    lookupH (assignWeights total hs) s = (lookupH hs s).map (weightEntry total) :=
  lookupH_map_keyed (fun _ h => weightEntry total h) hs s

theorem lookupH_pricedHoldings (priceOf : String → ℚ) (hs : Holdings) (s : String) :
    lookupH (pricedHoldings priceOf hs) s =
      (lookupH (hs.filter (fun kv => kv.2.units ≠ some 0 ∨ kv.1 = CASH)) s).map
        (priceEntry priceOf s) :=
  lookupH_map_keyed (priceEntry priceOf) _ s

theorem unitsOf_calculatePortfolioValues (priceOf : String → ℚ) (hs : Holdings) (s : String) :
    unitsOf (calculatePortfolioValues priceOf hs) s =
      unitsOf (hs.filter (fun kv => kv.2.units ≠ some 0 ∨ kv.1 = CASH)) s := by
  unfold unitsOf calculatePortfolioValues
  rw [lookupH_assignWeights, lookupH_pricedHoldings]
  cases lookupH (hs.filter (fun kv => kv.2.units ≠ some 0 ∨ kv.1 = CASH)) s with
  | none => rfl
  | some h => rfl

theorem costBasisOf_calculatePortfolioValues (priceOf : String → ℚ) (hs : Holdings)
    (s : String) :
    costBasisOf (calculatePortfolioValues priceOf hs) s =
      costBasisOf (hs.filter (fun kv => kv.2.units ≠ some 0 ∨ kv.1 = CASH)) s := by
  unfold costBasisOf calculatePortfolioValues
  rw [lookupH_assignWeights, lookupH_pricedHoldings]
  cases lookupH (hs.filter (fun kv => kv.2.units ≠ some 0 ∨ kv.1 = CASH)) s with
  | none => rfl
  | some h => rfl

set_option maxHeartbeats 1000000 in
/-- C5: for the ledger [buy KO 100 at 66 fee 0 on 2024-11-08, reinvest SWVXX
16.19 at 1.00 on 2024-12-31], the holdings snapshot as of 2024-12-31 has
KO.units = 100, KO.cost_basis = 6600, and cash units -6616.19, and the
`calculate_gain_loss` result sums total_cost_basis to 6616.19 across
symbols. -/
theorem scenario_ko_swvxx (priceOf : String → ℚ) (now : Nat) :
    unitsOf (calculate_stock_holdings priceOf [koBuy, swvxxReinvest] 20241231) "KO" =
      some 100 ∧
    costBasisOf (calculate_stock_holdings priceOf [koBuy, swvxxReinvest] 20241231) "KO" =
      some 6600 ∧
    unitsOf (calculate_stock_holdings priceOf [koBuy, swvxxReinvest] 20241231) CASH =
      some (-(661619 / 100)) ∧
    sumTotalCostBasis (calculate_gain_loss priceOf [koBuy, swvxxReinvest] now) =
      some (661619 / 100) := by
  have hsort : sortedLedger [koBuy, swvxxReinvest] 20241231 = [koBuy, swvxxReinvest] := by
    norm_num +decide [sortedLedger, sortByDate, List.insertionSort, List.orderedInsert, koBuy,
      swvxxReinvest]
  have h1 : stepTxn [(CASH, initCash 20241231)] koBuy = ksState1 := by
    norm_num +decide [stepTxn, ensureSymbol, initHolding, initCash, cashSub, cashAdd, updateH, lookupH,
      Option.isNone, koBuy, ksState1, pAdd, pSub, pMul, pAbs, pNotna, pNeZero, CASH]
  have h2 : stepTxn ksState1 swvxxReinvest = ksState2 := by
    norm_num +decide [stepTxn, ensureSymbol, initHolding, cashSub, cashAdd, updateH, lookupH,
      Option.isNone, swvxxReinvest, ksState1, ksState2, pAdd, pSub, pMul, pAbs, pNotna,
      pNeZero, CASH]
  have hreset : updateH ksState2 CASH (fun h => { h with cost_basis := h.units }) = ksState3 := by
    norm_num +decide [updateH, ksState2, ksState3, CASH]
  have hcsh : calculate_stock_holdings priceOf [koBuy, swvxxReinvest] 20241231 =
      calculatePortfolioValues priceOf ksState3 := by
    unfold calculate_stock_holdings
    rw [if_neg (by simp : ¬([koBuy, swvxxReinvest] = []))]
    dsimp only
    rw [hsort]
    simp only [List.foldl_cons, List.foldl_nil]
    rw [h1, h2, hreset]
  have hfilter : ksState3.filter (fun kv => kv.2.units ≠ some 0 ∨ kv.1 = CASH) = ksState3 := by
    norm_num +decide [ksState3, List.filter, CASH]
  refine ⟨?_, ?_, ?_, ?_⟩
  · rw [hcsh, unitsOf_calculatePortfolioValues, hfilter]
    norm_num +decide [unitsOf, lookupH, ksState3, CASH]
  · rw [hcsh, costBasisOf_calculatePortfolioValues, hfilter]
    norm_num +decide [costBasisOf, lookupH, ksState3, CASH]
  · rw [hcsh, unitsOf_calculatePortfolioValues, hfilter]
    norm_num +decide [unitsOf, lookupH, ksState3, CASH]
  · have hKOfilter : [koBuy, swvxxReinvest].filter (fun t => t.stock = "KO") = [koBuy] := by
      norm_num +decide [koBuy, swvxxReinvest, List.filter]
    have hSWfilter : [koBuy, swvxxReinvest].filter (fun t => t.stock = "SWVXX") =
        [swvxxReinvest] := by
      norm_num +decide [koBuy, swvxxReinvest, List.filter]
    have huniq : uniqueStocks [koBuy, swvxxReinvest] = ["KO", "SWVXX"] := by
      simp +decide [uniqueStocks, koBuy, swvxxReinvest]
    have hKO : ∀ X, (mkGLRec "KO"
        (sortByDate ([koBuy, swvxxReinvest].filter (fun t => t.stock = "KO")))
        X).total_cost_basis = some 6600 := by
      intro X
      rw [hKOfilter]
      norm_num +decide [mkGLRec, sortByDate, List.insertionSort, List.orderedInsert, glStep, glInit,
        koBuy, pAdd, pMul, pNotna, CASH]
    have hSW : ∀ X, (mkGLRec "SWVXX"
        (sortByDate ([koBuy, swvxxReinvest].filter (fun t => t.stock = "SWVXX")))
        X).total_cost_basis = some (1619 / 100) := by
      intro X
      rw [hSWfilter]
      norm_num +decide [mkGLRec, sortByDate, List.insertionSort, List.orderedInsert, glStep, glInit,
        swvxxReinvest, pAdd, pMul, pNotna, CASH]
    unfold calculate_gain_loss
    rw [if_neg (by simp : ¬([koBuy, swvxxReinvest] = []))]
    dsimp only
    rw [huniq]
    unfold sumTotalCostBasis
    simp only [List.map_cons, List.map_nil, List.foldl_cons, List.foldl_nil]
    rw [hKO, hSW]
    norm_num +decide [pAdd]

theorem keys_updateH (hs : Holdings) (s : String) (f : Holding → Holding) :
    (updateH hs s f).map Prod.fst = hs.map Prod.fst := by
  unfold updateH
  rw [List.map_map]
  congr 1
  funext kv
  by_cases h : kv.1 = s <;> simp [h]

theorem keysNodup_updateH (hs : Holdings) (s : String) (f : Holding → Holding)
    (H : KeysNodup hs) : KeysNodup (updateH hs s f) := by
  unfold KeysNodup
  rw [keys_updateH]
  exact H

theorem lookupH_none_iff (hs : Holdings) (s : String) :
    lookupH hs s = none ↔ s ∉ hs.map Prod.fst := by
  induction hs with
  | nil => simp [lookupH]
  | cons kv rest ih =>
      simp only [lookupH, List.map_cons, List.mem_cons]
      by_cases hk : kv.1 = s
      · simp [hk]
      · rw [if_neg hk, ih]
        constructor
        · intro h
          rintro (h1 | h2)
          · exact hk h1.symm
          · exact h h2
        · intro h hm
          exact h (Or.inr hm)

theorem keysNodup_ensureSymbol (hs : Holdings) (t : Txn) (H : KeysNodup hs) :
    KeysNodup (ensureSymbol hs t) := by
  unfold ensureSymbol
  split
  · rename_i hcond
    unfold KeysNodup
    rw [List.map_append]
    simp only [List.map_cons, List.map_nil]
    rw [List.nodup_append]
    refine ⟨H, List.nodup_singleton _, ?_⟩
    intro a ha hb
    simp at hb
    subst hb
    exact (lookupH_none_iff hs t.stock).1 (Option.isNone_iff_eq_none.1 hcond.2) ha
  · exact H

theorem keysNodup_stepTxn (hs : Holdings) (t : Txn) (H : KeysNodup hs) :
    KeysNodup (stepTxn hs t) := by
  have He : KeysNodup (ensureSymbol hs t) := keysNodup_ensureSymbol hs t H
  unfold stepTxn cashAdd cashSub
  dsimp only
  split_ifs <;>
    first
      | exact He
      | exact keysNodup_updateH _ _ _ He
      | exact keysNodup_updateH _ _ _ (keysNodup_updateH _ _ _ He)

theorem lookupH_of_mem_nodup (hs : Holdings) (s : String) (h : Holding)
    (Hnd : KeysNodup hs) (hmem : (s, h) ∈ hs) : lookupH hs s = some h := by
  induction hs with
  | nil => simp at hmem
  | cons kv rest ih =>
      unfold KeysNodup at Hnd
      simp only [List.map_cons, List.nodup_cons] at Hnd
      rcases List.mem_cons.1 hmem with heq | hmem'
      · subst heq
        simp [lookupH]
      · have hk : kv.1 ≠ s := by
          intro hks
          exact Hnd.1 (hks ▸ List.mem_map.2 ⟨(s, h), hmem', rfl⟩)
        simp only [lookupH, if_neg hk]
        exact ih Hnd.2 hmem'

theorem lookupH_append_self (hs : Holdings) (s : String) (h : Holding)
    (hnone : lookupH hs s = none) : lookupH (hs ++ [(s, h)]) s = some h := by
  induction hs with
  | nil => simp [lookupH]
  | cons kv rest ih =>
      simp only [lookupH] at hnone ⊢
      split at hnone
      · exact absurd hnone (by simp)
      · rename_i hk
        simp only [List.cons_append, lookupH, if_neg hk]
        exact ih hnone

theorem unitsOrZero_ensureSymbol (hs : Holdings) (t : Txn) (s : String) :
    unitsOrZero (ensureSymbol hs t) s = unitsOrZero hs s := by
  unfold ensureSymbol
  split
  · rename_i hcond
    unfold unitsOrZero
    by_cases hts : t.stock = s
    · subst hts
      rw [Option.isNone_iff_eq_none.1 hcond.2]
      rw [lookupH_append_self hs t.stock (initHolding t)
        (Option.isNone_iff_eq_none.1 hcond.2)]
      rfl
    · rw [lookupH_append_ne _ _ _ _ hts]
  · rfl

theorem nonnegUnits_updateH_of (hs : Holdings) (s : String) (f : Holding → Holding)
    (H : NonnegUnits hs)
    (hf : ∀ h : Holding, (s, h) ∈ hs → s ≠ CASH →
      (∃ q : ℚ, h.units = some q ∧ 0 ≤ q) → ∃ q : ℚ, (f h).units = some q ∧ 0 ≤ q) :
    NonnegUnits (updateH hs s f) := by
  intro p hp hpc
  unfold updateH at hp
  rcases List.mem_map.1 hp with ⟨kv, hkv, rfl⟩
  by_cases hk : kv.1 = s
  · rw [if_pos hk] at hpc ⊢
    have hne : s ≠ CASH := hk ▸ hpc
    have hq := H kv hkv (hk ▸ hpc)
    exact hf kv.2 (by rw [← hk]; exact hkv) hne hq
  · rw [if_neg hk] at hpc ⊢
    exact H kv hkv hpc

theorem nonnegUnits_cash_update (hs : Holdings) (f : Holding → Holding)
    (H : NonnegUnits hs) : NonnegUnits (updateH hs CASH f) :=
  nonnegUnits_updateH_of hs CASH f H (fun _ _ hne _ => absurd rfl hne)

theorem nonnegUnits_ensureSymbol (hs : Holdings) (t : Txn) (H : NonnegUnits hs) :
    NonnegUnits (ensureSymbol hs t) := by
  unfold ensureSymbol
  split
  · intro p hp hpc
    rcases List.mem_append.1 hp with h | h
    · exact H p h hpc
    · simp only [List.mem_singleton] at h
      subst h
      exact ⟨0, rfl, le_refl 0⟩
  · exact H

theorem nonnegUnits_addUpdate (E : Holdings) (s : String) (t : Txn) (f : Holding → Holding)
    (hf : ∀ h, (f h).units = pAdd h.units t.units) (He : NonnegUnits E)
    (hnotna : pNotna t.units = true)
    (hu : ∀ u : ℚ, t.units = some u → 0 ≤ u) :
    NonnegUnits (updateH E s f) := by
  apply nonnegUnits_updateH_of E s f He
  rintro h _ _ ⟨q, hq, h0⟩
  cases htu : t.units with
  | none => rw [htu] at hnotna; exact absurd hnotna (by simp [pNotna])
  | some u =>
      refine ⟨q + u, ?_, add_nonneg h0 (hu u htu)⟩
      rw [hf, hq, htu]
      rfl

theorem nonnegUnits_sellUpdate (E : Holdings) (t : Txn) (f : Holding → Holding)
    (hf : ∀ h, (f h).units = pSub h.units t.units)
    (He : NonnegUnits E) (Hend : KeysNodup E)
    (hnotna : pNotna t.units = true)
    (hcover : t.stock ≠ CASH → ∀ u : ℚ, t.units = some u →
      ∃ q : ℚ, unitsOrZero E t.stock = some q ∧ u ≤ q) :
    NonnegUnits (updateH E t.stock f) := by
  apply nonnegUnits_updateH_of E t.stock f He
  rintro h hmem hne ⟨q, hq, h0⟩
  cases htu : t.units with
  | none => rw [htu] at hnotna; exact absurd hnotna (by simp [pNotna])
  | some u =>
      obtain ⟨q', hq', hle⟩ := hcover hne u htu
      have hlk : lookupH E t.stock = some h := lookupH_of_mem_nodup E t.stock h Hend hmem
      have huz : unitsOrZero E t.stock = some q := by
        unfold unitsOrZero
        rw [hlk]
        exact hq
      rw [huz] at hq'
      have hqq : u ≤ q := by
        have : q = q' := Option.some_inj.1 hq'
        rw [this]
        exact hle
      refine ⟨q - u, ?_, sub_nonneg.2 hqq⟩
      rw [hf, hq, htu]
      rfl

theorem stepTxn_nonneg (hs : Holdings) (t : Txn)
    (H : NonnegUnits hs) (Hnd : KeysNodup hs)
    (hbuy : (t.transaction_type = "buy" ∨ t.transaction_type = "reinvest" ∨
        t.transaction_type = "stock_transfer" ∨ t.transaction_type = "split") →
      ∀ u : ℚ, t.units = some u → 0 ≤ u)
    (hsell : t.transaction_type = "sell" → t.stock ≠ CASH → ∀ u : ℚ, t.units = some u →
      ∃ q : ℚ, unitsOrZero hs t.stock = some q ∧ u ≤ q) :
    NonnegUnits (stepTxn hs t) := by
  have He : NonnegUnits (ensureSymbol hs t) := nonnegUnits_ensureSymbol hs t H
  have Hend : KeysNodup (ensureSymbol hs t) := keysNodup_ensureSymbol hs t Hnd
  unfold stepTxn cashAdd cashSub
  dsimp only
  split
  · rename_i c1
    have hu4 : ∀ u : ℚ, t.units = some u → 0 ≤ u := hbuy (by tauto)
    split
    · apply nonnegUnits_cash_update
      split
      · rename_i c2
        exact nonnegUnits_addUpdate _ _ t _ (fun h => rfl) He c2.1 hu4
      · exact He
    · split
      · rename_i c2
        exact nonnegUnits_addUpdate _ _ t _ (fun h => rfl) He c2.1 hu4
      · exact He
  · split
    · rename_i csell
      apply nonnegUnits_cash_update
      split
      · rename_i c2
        refine nonnegUnits_sellUpdate _ t _ (fun h => ?_) He Hend c2.1 ?_
        · dsimp only
          split <;> rfl
        · intro hne u hu
          rw [unitsOrZero_ensureSymbol hs t t.stock]
          exact hsell csell hne u hu
      · exact He
    · split
      · split
        · exact nonnegUnits_cash_update _ _ He
        · exact He
      · split
        · exact nonnegUnits_cash_update _ _ He
        · split
          · exact nonnegUnits_cash_update _ _ He
          · split
            · split
              · exact nonnegUnits_cash_update _ _ He
              · exact nonnegUnits_cash_update _ _ He
            · split
              · rename_i csplit
                split
                · rename_i c2
                  exact nonnegUnits_addUpdate _ _ t _ (fun h => rfl) He c2.1
                    (hbuy (by tauto))
                · exact He
              · exact He

theorem replay_nonneg (txns : List Txn) :
    ∀ hs0 : Holdings, NonnegUnits hs0 → KeysNodup hs0 → BuyUnitsNonneg txns →
      SellsCovered hs0 txns → NonnegUnits (txns.foldl stepTxn hs0) := by
  induction txns with
  | nil => exact fun hs0 H _ _ _ => H
  | cons t ts ih =>
      intro hs0 H Hnd hbuy hsell
      simp only [List.foldl_cons]
      refine ih (stepTxn hs0 t) ?_ ?_ ?_ ?_
      · refine stepTxn_nonneg hs0 t H Hnd ?_ ?_
        · exact hbuy t (List.mem_cons_self t ts)
        · intro hst hne u hu
          exact hsell 0 (by simp) hst hne u hu
      · exact keysNodup_stepTxn hs0 t Hnd
      · intro t' ht'
        exact hbuy t' (List.mem_cons_of_mem t ht')
      · intro i hi
        exact hsell (i + 1) (Nat.succ_lt_succ hi)

theorem mem_calculatePortfolioValues (priceOf : String → ℚ) (hs : Holdings)
    (p : String × Holding) (hp : p ∈ calculatePortfolioValues priceOf hs) :
    ∃ kv ∈ hs, p.1 = kv.1 ∧ p.2.units = kv.2.units := by
  unfold calculatePortfolioValues assignWeights pricedHoldings at hp
  rcases List.mem_map.1 hp with ⟨a, ha, rfl⟩
  rcases List.mem_map.1 ha with ⟨b, hb, rfl⟩
  exact ⟨b, (List.mem_filter.1 hb).1, rfl, rfl⟩

/-- C2 counterexample: on the ledger holding only a sell of 20 AAPL units
(with no prior buy), the snapshot returned by `calculate_stock_holdings`
carries AAPL with units -20, a strictly negative unit count for a non-cash
symbol: the replay subtracts sold units unconditionally and the zero-position
filter keeps the now-negative position. -/
theorem negative_units_after_oversell :
    unitsOf (calculate_stock_holdings (fun _ => 0) [overSell] 10) "AAPL" = some (-20) ∧
    "AAPL" ≠ CASH ∧ ((-20 : ℚ) < 0) := by
  refine ⟨?_, by decide, by norm_num⟩
  have hsort : sortedLedger [overSell] 10 = [overSell] := by
    norm_num +decide [sortedLedger, sortByDate, List.insertionSort, List.orderedInsert,
      overSell]
  have hstep : stepTxn [(CASH, initCash 10)] overSell =
      [(CASH, { units := some 200, security_type := "cash", cost_basis := some 0,
                last_price := some 1, market_value := some 0, weight := some 0,
                last_update := 10 }),
       ("AAPL", { units := some (-20), security_type := "stock", cost_basis := some 0,
                  last_price := some 0, market_value := some 0, weight := some 0,
                  last_update := 5 })] := by
    norm_num +decide [stepTxn, ensureSymbol, initHolding, initCash, cashSub, cashAdd,
      updateH, lookupH, Option.isNone, overSell, pAdd, pSub, pMul, pAbs, pNotna, pNeZero,
      pGtZero, pDiv, CASH]
  have hcsh : calculate_stock_holdings (fun _ => 0) [overSell] 10 =
      calculatePortfolioValues (fun _ => 0)
        [(CASH, { units := some 200, security_type := "cash", cost_basis := some 200,
                  last_price := some 1, market_value := some 0, weight := some 0,
                  last_update := 10 }),
         ("AAPL", { units := some (-20), security_type := "stock", cost_basis := some 0,
                    last_price := some 0, market_value := some 0, weight := some 0,
                    last_update := 5 })] := by
    unfold calculate_stock_holdings
    rw [if_neg (by simp : ¬([overSell] = []))]
    dsimp only
    rw [hsort]
    simp only [List.foldl_cons, List.foldl_nil]
    rw [hstep]
    norm_num +decide [updateH, CASH]
  rw [hcsh, unitsOf_calculatePortfolioValues]
  norm_num +decide [unitsOf, lookupH, List.filter, CASH]

/-- C2 amended: in the snapshot returned by `calculate_stock_holdings`, every
symbol other than the cash sentinel has zero or positive units, provided the
replayed ledger is well-formed: all position-increasing transactions carry
nonnegative unit counts, and no sell removes more units than its symbol holds
at that point of the replay.  (Without that proviso the invariant fails: an
uncovered sell drives units negative.) -/
theorem holdings_units_nonneg (priceOf : String → ℚ) (df : List Txn) (asOf : Nat)
    (hbuy : BuyUnitsNonneg (sortedLedger df asOf))
    (hsell : SellsCovered [(CASH, initCash asOf)] (sortedLedger df asOf)) :
    ∀ p ∈ calculate_stock_holdings priceOf df asOf, p.1 ≠ CASH →
      ∃ q : ℚ, p.2.units = some q ∧ 0 ≤ q := by
  intro p hp hpc
  unfold calculate_stock_holdings at hp
  split at hp
  · simp at hp
  · have Hrep : NonnegUnits ((sortedLedger df asOf).foldl stepTxn [(CASH, initCash asOf)]) := by
      refine replay_nonneg _ _ ?_ ?_ hbuy hsell
      · intro p' hp' hpc'
        simp only [List.mem_singleton] at hp'
        subst hp'
        exact absurd rfl hpc'
      · simp [KeysNodup]
    have Hreset : NonnegUnits (updateH ((sortedLedger df asOf).foldl stepTxn
        [(CASH, initCash asOf)]) CASH (fun h => { h with cost_basis := h.units })) :=
      nonnegUnits_cash_update _ _ Hrep
    obtain ⟨kv, hkv, hk1, hk2⟩ := mem_calculatePortfolioValues _ _ _ hp
    obtain ⟨q, hq, h0⟩ := Hreset kv hkv (fun hc => hpc (hk1 ▸ hc))
    exact ⟨q, hk2 ▸ hq, h0⟩

/-- A Python dict entry found by key lookup is an entry of the dict. -/
theorem mem_of_lookupH (hs : Holdings) (s : String) (h : Holding)
    (hlk : lookupH hs s = some h) : (s, h) ∈ hs := by
  induction hs with
  | nil => simp [lookupH] at hlk
  | cons kv rest ih =>
      simp only [lookupH] at hlk
      split at hlk
      · rename_i hk
        rcases Option.some_inj.1 hlk with rfl
        rw [← hk]
        exact List.mem_cons_self kv rest
      · exact List.mem_cons_of_mem kv (ih hlk)

/-- C2 amended witness: the covered ledger [buy 10 AAPL, sell 4 AAPL] keeps
the snapshot's AAPL unit count (6 units) nonnegative. -/
theorem holdings_units_nonneg_witness :
    ∃ q : ℚ,
      unitsOf (calculate_stock_holdings (fun _ => 0) [witBuy, witSell] 100) "AAPL" =
        some q ∧ 0 ≤ q := by
  have hsort : sortedLedger [witBuy, witSell] 100 = [witBuy, witSell] := by
    norm_num +decide [sortedLedger, sortByDate, List.insertionSort, List.orderedInsert,
      witBuy, witSell]
  have hstep1 : unitsOrZero (stepTxn [(CASH, initCash 100)] witBuy) "AAPL" = some 10 := by
    norm_num +decide [stepTxn, ensureSymbol, initHolding, initCash, cashSub, cashAdd,
      updateH, lookupH, Option.isNone, unitsOrZero, witBuy, pAdd, pSub, pMul, pAbs,
      pNotna, pNeZero, CASH]
  have hb : BuyUnitsNonneg (sortedLedger [witBuy, witSell] 100) := by
    rw [hsort]
    intro t ht htype u hu
    rcases List.mem_cons.1 ht with rfl | ht'
    · rw [show witBuy.units = some 10 from rfl] at hu
      rw [← Option.some_inj.1 hu]
      norm_num
    · rcases List.mem_cons.1 ht' with rfl | habs
      · exact absurd htype (by decide)
      · simp at habs
  have hsc : SellsCovered [(CASH, initCash 100)] (sortedLedger [witBuy, witSell] 100) := by
    rw [hsort]
    intro i hi
    have hi2 : i < 2 := by simpa using hi
    interval_cases i
    · intro htype
      have htype' : witBuy.transaction_type = "sell" := htype
      exact absurd htype' (by decide)
    · intro _ _ u hu
      have hu4 : (some (4 : ℚ) : PV) = some u := hu
      refine ⟨10, hstep1, ?_⟩
      rw [← Option.some_inj.1 hu4]
      norm_num
  have hnn := holdings_units_nonneg (fun _ => 0) [witBuy, witSell] 100 hb hsc
  have hlk : lookupH (calculate_stock_holdings (fun _ => 0) [witBuy, witSell] 100) "AAPL" =
      some { units := some 6, security_type := "stock", cost_basis := some 30,
             last_price := some 0, market_value := some 0, weight := some 0,
             last_update := 1 } := by
    norm_num +decide [calculate_stock_holdings, sortedLedger, sortByDate, List.insertionSort,
      List.orderedInsert, stepTxn, ensureSymbol, initHolding, initCash, cashSub, cashAdd,
      updateH, lookupH, Option.isNone, witBuy, witSell, calculatePortfolioValues,
      pricedHoldings, priceEntry, assignWeights, weightEntry, totalMarketValue, List.filter,
      pAdd, pSub, pMul, pAbs, pDiv, pNotna, pNeZero, pGtZero, CASH, FIXED_INCOME]
  obtain ⟨q, hq, h0⟩ := hnn _ (mem_of_lookupH _ _ _ hlk) (by decide)
  refine ⟨q, ?_, h0⟩
  unfold unitsOf
  rw [hlk]
  exact hq

/-- C5 witness: the scenario equalities at the concrete price function 0 and
the concrete gain/loss evaluation date. -/
theorem scenario_ko_swvxx_witness :
    unitsOf (calculate_stock_holdings (fun _ => 0) [koBuy, swvxxReinvest] 20241231) "KO" =
      some 100 ∧
    costBasisOf (calculate_stock_holdings (fun _ => 0) [koBuy, swvxxReinvest] 20241231) "KO" =
      some 6600 ∧
    unitsOf (calculate_stock_holdings (fun _ => 0) [koBuy, swvxxReinvest] 20241231) CASH =
      some (-(661619 / 100)) ∧
    sumTotalCostBasis (calculate_gain_loss (fun _ => 0) [koBuy, swvxxReinvest] 20250101) =
      some (661619 / 100) :=
  scenario_ko_swvxx (fun _ => 0) 20250101

/-- C8 witness: the downloader model applied at a concrete date. -/
theorem download_failure_yields_zero_witness :
    (∀ e, download_single_price 20241231 (Except.error e) = 0) ∧
    download_single_price 20241231 (Except.ok []) = 0 :=
  download_failure_yields_zero 20241231

/-- C10 witness: a concrete dividend transaction with a zero amount steps the
initial cash-only state exactly as its amount-free twin does. -/
theorem zero_amount_same_as_missing_witness :
    stepTxn [(CASH, initCash 0)]
      { date := 1, stock := "KO", transaction_type := "dividend", units := some 3,
        price := some 1, fee := some 0, security_type := "stock", amount := some 0 } =
    stepTxn [(CASH, initCash 0)]
      { date := 1, stock := "KO", transaction_type := "dividend", units := some 3,
        price := some 1, fee := some 0, security_type := "stock", amount := none } :=
  zero_amount_same_as_missing [(CASH, initCash 0)]
    { date := 1, stock := "KO", transaction_type := "dividend", units := some 3,
      price := some 1, fee := some 0, security_type := "stock", amount := some 0 }
